import Mathlib

/-!
Verification of the SCB current-analysis data pipeline (appscbdashboard.py).

The pipeline operates on in-memory tables (pandas DataFrames).  We embed a
DataFrame with numeric columns as an ordered list of named columns of
rational values; timestamps are embedded as integers (seconds), with date
extraction by flooring to whole days.  Fallible DataFrame operations
(reading a missing column) are embedded with Option.
-/

namespace SCB

/-- Cell values of reading tables: numeric currents, embedded as rationals. -/
abbrev Val := ℚ

/-- A DataFrame with numeric columns: ordered columns, each a name paired
with its values. -/
structure Table where
  cols : List (String × List Val)
deriving DecidableEq, Repr

/-- Column names of a table, in order (df.columns). -/
def colNames (t : Table) : List String :=
  t.cols.map Prod.fst

/-- Reading a column by name (df[name]); none models the KeyError raised on
a missing column. -/
def getCol (t : Table) (n : String) : Option (List Val) :=
  (t.cols.find? (fun c => c.fst == n)).map Prod.snd

/-- Writing a column by name (df[name] = vs): replaces the values of every
column called n, leaving the rest untouched. -/
def setCol (t : Table) (n : String) (vs : List Val) : Table :=
  ⟨t.cols.map (fun c => if c.fst == n then (c.fst, vs) else c)⟩

/-- Source get_scb_columns: the column names starting with CB_CURRENT, in
table order. -/
def get_scb_columns (t : Table) : List String :=
  (colNames t).filter (fun c => c.startsWith "CB_CURRENT")

/-- Embedding of np.where(col > threshold, 0, col): values strictly above
the threshold become 0, the rest are unchanged. -/
def npWhereGtZero (threshold : Val) (vs : List Val) : List Val :=
  vs.map (fun v => if threshold < v then 0 else v)

/-- Source apply_threshold: for each name in scbs in order, replace that
column by np.where(col > threshold, 0, col).  none models the KeyError on a

 missing column. -/
def apply_threshold (df : Table) (scbs : List String) (threshold : Val) :
    Option Table :=
  match scbs with
  | [] => some df
  | s :: rest =>
    match getCol df s with
    | none => none
    | some vs => apply_threshold (setCol df s (npWhereGtZero threshold vs)) rest threshold

/-- Source remove_inactive: keep the channels whose column is not uniformly
zero ([s for s in scbs if not (df[s] == 0).all()]). -/
def remove_inactive (df : Table) (scbs : List String) : Option (List String) :=
  match scbs with
  | [] => some []
  | s :: rest =>
    match getCol df s with
    | none => none
    | some vs =>
      match remove_inactive df rest with
      | none => none
      | some kept =>
        if vs.all (fun v => v == 0) then some kept else some (s :: kept)

/-- A raw DC capacity file: one row per line, a CB_INDEX key paired with a
STRINGS value. -/
structure RawCapacity where
  rows : List (String × Val)
deriving DecidableEq, Repr

/-- A capacity table after set_index: an index of keys (duplicates allowed,
as pandas set_index keeps them) aligned with the STRINGS column. -/
structure IndexedCapacity where
  index : List String
  strings : List Val
deriving DecidableEq, Repr

/-- Source load_dc_file: df.set_index moves the CB_INDEX column into the
index, keeping every row (duplicates included) in order. -/
def load_dc_file (f : RawCapacity) : IndexedCapacity :=
  ⟨f.rows.map Prod.fst, f.rows.map Prod.snd⟩

/-- Embedding of dc_df.loc[k, STRINGS]: the STRINGS values of every row
whose index label equals k, in row order. -/
def dcLoc (t : IndexedCapacity) (k : String) : List Val :=
  ((t.index.zip t.strings).filter (fun p => p.fst == k)).map Prod.snd

/-- Scalar .loc lookup: defined exactly when the label matches a single
row, as in the unique-index regime assumed by the normalization code. -/
def locScalar (t : IndexedCapacity) (k : String) : Option Val :=
  match dcLoc t k with
  | [v] => some v
  | _ => none

/-- The normalization loop inlined in dashboard_page: for each selected
channel, if it is a key of the capacity index, divide its column by the
scalar string count (plot_df[scb] /= dc_df.loc[scb, STRINGS]); otherwise
leave it alone.  none models the non-scalar or missing-column cases. -/
def normalizeChannels (df : Table) (selected : List String)
    (dc : IndexedCapacity) : Option Table :=
  match selected with
  | [] => some df
  | s :: rest =>
    if dc.index.contains s then
      match locScalar dc s, getCol df s with
      | some q, some vs =>
        normalizeChannels (setCol df s (vs.map (fun v => v / q))) rest dc
      | _, _ => none
    else normalizeChannels df rest dc

/-- Seconds in a day, the unit of timedelta(days=1). -/
def secondsPerDay : Int := 86400

/-- One row of the reading table after load: a DATETIME timestamp (seconds)
plus the numeric cells of the row. -/
structure CBRow where
  dt : Int
  vals : List Val
deriving DecidableEq, Repr

/-- Date extraction (series.dt.date): the whole day containing the
timestamp. -/
def dateOf (t : Int) : Int :=
  Int.fdiv t secondsPerDay

/-- The five choices of the Date Range selector. -/
inductive DateOption where
  | all
  | today
  | last7
  | last15
  | custom (startDate endDate : Int)
deriving DecidableEq, Repr

/-- The dict literal mapping Today to 0, Last 7 Days to 7, Last 15 Days
to 15. -/
def daysOf : DateOption → Int
  | .today => 0
  | .last7 => 7
  | .last15 => 15
  | _ => 0

/-- The date-range filter inlined in dashboard_page: Custom keeps the rows
whose date lies between the two picked dates; All leaves the table alone;
the remaining modes keep the rows with DATETIME at least the maximum
DATETIME minus the mode's number of days (on an empty table the NaT
comparison keeps nothing). -/
def timeFilter (rows : List CBRow) (opt : DateOption) : List CBRow :=
  match opt with
  | .all => rows
  | .custom s e =>
    rows.filter (fun r => decide (s ≤ dateOf r.dt) && decide (dateOf r.dt ≤ e))
  | m =>
    match (rows.map (fun r => r.dt)).max? with
    | none => []
    | some maxDt =>
      rows.filter (fun r => decide (maxDt - daysOf m * secondsPerDay ≤ r.dt))

/-- Source validate_cb_file, which only inspects df.columns: reject when
Date or Time is absent, then when no CB_CURRENT-prefixed column exists. -/
def validate_cb_file (columns : List String) : Bool × String :=
  if !(columns.contains "Date" && columns.contains "Time") then
    (false, "Missing Date or Time column")
  else if (columns.filter (fun c => c.startsWith "CB_CURRENT")).isEmpty then
    (false, "No CB_CURRENT columns found")
  else
    (true, "Valid CB data file")

/-- A raw DC capacity file as the validator sees it: its column names and
its STRINGS column, none standing for a null cell. -/
structure CapacityFile where
  columns : List String
  strings : List (Option Val)
deriving DecidableEq, Repr

/-- Source validate_dc_file: reject when CB_INDEX or STRINGS is absent,
then when the STRINGS column has a null; nothing else is checked. -/
def validate_dc_file (f : CapacityFile) : Bool × String :=
  if !(f.columns.contains "CB_INDEX" && f.columns.contains "STRINGS") then
    (false, "Missing CB_INDEX or STRINGS column")
  else if f.strings.any (fun v => v.isNone) then
    (false, "STRINGS column contains empty values")
  else
    (true, "Valid DC capacity file")

/-- The welcome-page store step for the CB upload: the session slot is
overwritten with the loaded table only when validation succeeds, and is
left as it was otherwise. -/
def welcomeStoreCB (stored : Option Table) (columns : List String)
    (loaded : Table) : Option Table :=
  if (validate_cb_file columns).fst then some loaded else stored

/-- A heap of tables, for stating that apply_threshold does not mutate its
argument: Python names are references into this heap. -/
abbrev Heap := List Table

/-- The loop body of apply_threshold run against the heap: each iteration
reads column s of the table at reference r and writes the masked column
back to the same reference. -/
def applyThresholdLoop (h : Heap) (r : Nat) (scbs : List String)
    (threshold : Val) : Option Heap :=
  match scbs with
  | [] => some h
  | s :: rest =>
    match h[r]? with
    | none => none
    | some t =>
      match getCol t s with
      | none => none
      | some vs =>
        applyThresholdLoop (h.set r (setCol t s (npWhereGtZero threshold vs)))
          r rest threshold

/-- Source apply_threshold run against the heap: df = df.copy() allocates a
fresh reference holding a copy of the input, the loop mutates only that
fresh reference, and the fresh reference is returned. -/
def applyThresholdProg (h : Heap) (dfRef : Nat) (scbs : List String)
    (threshold : Val) : Option (Heap × Nat) :=
  match h[dfRef]? with
  | none => none
  | some t =>
    match applyThresholdLoop (h ++ [t]) h.length scbs threshold with
    | none => none
    | some h2 => some (h2, h.length)

/-! ### Helper lemmas about the column model -/

theorem find?_eq_of_mem_nodup {l : List (String × List Val)}
    (hnd : (l.map Prod.fst).Nodup) {c : String × List Val} (hc : c ∈ l) :
    l.find? (fun d => d.fst == c.fst) = some c := by
  induction l with
  | nil => cases hc
  | cons d l ih =>
    rcases List.mem_cons.mp hc with h | hc2
    · rw [h]
      exact List.find?_cons_of_pos _ (by simp)
    · have hd : ¬ (d.fst == c.fst) = true := by
        intro h
        apply (List.nodup_cons.mp hnd).1
        rw [eq_of_beq h]
        exact List.mem_map_of_mem Prod.fst hc2
      have hstep : List.find? (fun x => x.fst == c.fst) (d :: l) =
          List.find? (fun x => x.fst == c.fst) l :=
        List.find?_cons_of_neg l hd
      rw [hstep]
      exact ih (List.nodup_cons.mp hnd).2 hc2

theorem getCol_of_mem {t : Table} (hnd : (colNames t).Nodup)
    {c : String × List Val} (hc : c ∈ t.cols) :
    getCol t c.fst = some c.snd := by
  unfold getCol
  rw [find?_eq_of_mem_nodup hnd hc]
  rfl

theorem exists_col_of_mem_colNames {t : Table} {s : String}
    (h : s ∈ colNames t) : ∃ c ∈ t.cols, c.fst = s :=
  List.mem_map.mp h

theorem colNames_setCol (t : Table) (n : String) (vs : List Val) :
    colNames (setCol t n vs) = colNames t := by
  unfold colNames setCol
  rw [List.map_map]
  apply List.map_congr_left
  intro c _
  by_cases h : c.fst = n <;> simp [h]

theorem npWhereGtZero_idem (threshold : Val) (vs : List Val) :
    npWhereGtZero threshold (npWhereGtZero threshold vs) =
      npWhereGtZero threshold vs := by
  unfold npWhereGtZero
  rw [List.map_map]
  apply List.map_congr_left
  intro v _
  by_cases h : threshold < v
  · simp only [Function.comp_apply, if_pos h]
    by_cases h0 : threshold < 0 <;> simp [h0]
  · simp [Function.comp_apply, h]

/-! ### Claim C1 -/

/-- Claim C1: for a table with distinct column names and selected channels
drawn from its columns, apply_threshold returns the table in which every
selected channel column has each value strictly above the threshold
replaced by 0 and every other value kept, while non-selected columns are
identical to the input. -/
theorem apply_threshold_masks_selected (df : Table) (scbs : List String)
    (threshold : Val) (hnd : (colNames df).Nodup)
    (hmem : ∀ s ∈ scbs, s ∈ colNames df) :
    apply_threshold df scbs threshold =
      some ⟨df.cols.map (fun c =>
        if scbs.contains c.fst then (c.fst, npWhereGtZero threshold c.snd)
        else c)⟩ := by
  induction scbs generalizing df with
  | nil =>
    cases df with
    | mk cols => simp [apply_threshold]
  | cons s rest ih =>
    obtain ⟨c, hc, hcs⟩ := exists_col_of_mem_colNames (hmem s (by simp))
    have hget : getCol df s = some c.snd := by
      rw [← hcs]; exact getCol_of_mem hnd hc
    unfold apply_threshold
    rw [hget]
    show apply_threshold (setCol df s (npWhereGtZero threshold c.snd)) rest threshold = _
    rw [ih (setCol df s (npWhereGtZero threshold c.snd))
        (by rw [colNames_setCol]; exact hnd)
        (fun x hx => by
          rw [colNames_setCol]; exact hmem x (List.mem_cons_of_mem _ hx))]
    congr 1
    show Table.mk _ = Table.mk _
    congr 1
    show (df.cols.map fun d =>
        if d.fst == s then (d.fst, npWhereGtZero threshold c.snd) else d).map _ = _
    rw [List.map_map]
    apply List.map_congr_left
    intro d hd
    by_cases hds : d.fst = s
    · have h1 := getCol_of_mem hnd hd
      rw [hds, hget] at h1
      have hdc : c.snd = d.snd := Option.some.inj h1
      by_cases hr : rest.contains d.fst <;>
        simp [Function.comp_apply, hds, hr, List.contains_cons,
          npWhereGtZero_idem, ← hdc]
    · have hds2 : ¬ (d.fst == s) = true := by simp [hds]
      by_cases hr : rest.contains d.fst <;>
        simp [Function.comp_apply, hds2, hds, hr, List.contains_cons]

/-- Witness for C1 at the spec's end-to-end example: threshold 200 on
readings [50, 250, 10] gives [50, 0, 10] and leaves the non-selected
channel untouched. -/
theorem apply_threshold_masks_selected_witness :
    apply_threshold ⟨[("CB_CURRENT_1", [50, 250, 10]), ("CB_CURRENT_2", [300])]⟩
        ["CB_CURRENT_1"] 200 =
      some ⟨[("CB_CURRENT_1", [50, 0, 10]), ("CB_CURRENT_2", [300])]⟩ :=
  (apply_threshold_masks_selected
      ⟨[("CB_CURRENT_1", [50, 250, 10]), ("CB_CURRENT_2", [300])]⟩
      ["CB_CURRENT_1"] 200 (by decide) (by decide)).trans (by decide)

/-! ### Claim C2 -/

theorem remove_inactive_eq_filter (df : Table) (scbs : List String)
    (hmem : ∀ s ∈ scbs, (getCol df s).isSome) :
    remove_inactive df scbs =
      some (scbs.filter
        (fun s => !((getCol df s).getD []).all (fun v => v == 0))) := by
  induction scbs with
  | nil => simp [remove_inactive]
  | cons s rest ih =>
    obtain ⟨vs, hvs⟩ := Option.isSome_iff_exists.mp (hmem s (by simp))
    unfold remove_inactive
    rw [hvs, ih (fun x hx => hmem x (List.mem_cons_of_mem _ hx))]
    by_cases hall : vs.all (fun v => v == 0) <;>
      simp [List.filter_cons, hvs, hall]

/-- Claim C2: remove_inactive returns an order-preserving subsequence of
the channel list; a channel whose column is all zero (in particular any
channel when there are no rows) is dropped, and a channel with some
non-zero value is kept. -/
theorem remove_inactive_subsequence (df : Table) (scbs : List String)
    (hmem : ∀ s ∈ scbs, (getCol df s).isSome) :
    ∃ kept, remove_inactive df scbs = some kept ∧
      kept.Sublist scbs ∧
      ∀ s ∈ scbs, ∀ vs, getCol df s = some vs →
        ((∀ v ∈ vs, v = 0) → s ∉ kept) ∧
        ((∃ v ∈ vs, v ≠ 0) → s ∈ kept) := by
  refine ⟨_, remove_inactive_eq_filter df scbs hmem, List.filter_sublist _, ?_⟩
  intro s hs vs hvs
  constructor
  · intro hz hmemk
    have hp := (List.mem_filter.mp hmemk).2
    rw [hvs] at hp
    simp at hp
    obtain ⟨v, hv, hv0⟩ := hp
    exact hv0 (hz v hv)
  · rintro ⟨v, hv, hv0⟩
    refine List.mem_filter.mpr ⟨hs, ?_⟩
    rw [hvs]
    simp
    exact ⟨v, hv, hv0⟩

/-- Witness for C2: after thresholding, channel 1 with values [50, 0, 10]
is kept while the all-zero channel 2 is dropped. -/
theorem remove_inactive_subsequence_witness :
    ∃ kept,
      remove_inactive ⟨[("CB_CURRENT_1", [50, 0, 10]), ("CB_CURRENT_2", [0, 0, 0])]⟩
        ["CB_CURRENT_1", "CB_CURRENT_2"] = some kept ∧
      kept.Sublist ["CB_CURRENT_1", "CB_CURRENT_2"] ∧
      ∀ s ∈ ["CB_CURRENT_1", "CB_CURRENT_2"], ∀ vs,
        getCol ⟨[("CB_CURRENT_1", [50, 0, 10]), ("CB_CURRENT_2", [0, 0, 0])]⟩ s = some vs →
        ((∀ v ∈ vs, v = 0) → s ∉ kept) ∧
        ((∃ v ∈ vs, v ≠ 0) → s ∈ kept) :=
  remove_inactive_subsequence
    ⟨[("CB_CURRENT_1", [50, 0, 10]), ("CB_CURRENT_2", [0, 0, 0])]⟩
    ["CB_CURRENT_1", "CB_CURRENT_2"] (by decide)

/-! ### Claim C3 -/

theorem normalizeChannels_eq_map (dc : IndexedCapacity) (selected : List String)
    (df : Table) (hnd : (colNames df).Nodup) (hsel : selected.Nodup)
    (hmem : ∀ s ∈ selected, s ∈ colNames df)
    (hloc : ∀ s ∈ selected, dc.index.contains s = true → (locScalar dc s).isSome) :
    normalizeChannels df selected dc =
      some ⟨df.cols.map (fun c =>
        if selected.contains c.fst && dc.index.contains c.fst then
          (c.fst, c.snd.map (fun v => v / (locScalar dc c.fst).getD 1))
        else c)⟩ := by
  induction selected generalizing df with
  | nil =>
    cases df with
    | mk cols => simp [normalizeChannels]
  | cons s rest ih =>
    obtain ⟨c, hc, hcs⟩ := exists_col_of_mem_colNames (hmem s (by simp))
    have hget : getCol df s = some c.snd := by
      rw [← hcs]; exact getCol_of_mem hnd hc
    have hsr : s ∉ rest := (List.nodup_cons.mp hsel).1
    unfold normalizeChannels
    by_cases hidx : dc.index.contains s = true
    · obtain ⟨q, hq⟩ :=
        Option.isSome_iff_exists.mp (hloc s (by simp) hidx)
      have hmemidx : s ∈ dc.index := List.elem_iff.mp hidx
      rw [hidx, hq, hget]
      show normalizeChannels (setCol df s (c.snd.map (fun v => v / q))) rest dc = _
      rw [ih (setCol df s (c.snd.map (fun v => v / q)))
          (by rw [colNames_setCol]; exact hnd)
          (List.nodup_cons.mp hsel).2
          (fun x hx => by
            rw [colNames_setCol]; exact hmem x (List.mem_cons_of_mem _ hx))
          (fun x hx => hloc x (List.mem_cons_of_mem _ hx))]
      congr 1
      show Table.mk _ = Table.mk _
      congr 1
      show (df.cols.map fun d =>
          if d.fst == s then (d.fst, c.snd.map (fun v => v / q)) else d).map _ = _
      rw [List.map_map]
      apply List.map_congr_left
      intro d hd
      by_cases hds : d.fst = s
      · have h1 := getCol_of_mem hnd hd
        rw [hds, hget] at h1
        have hdc : c.snd = d.snd := Option.some.inj h1
        simp [Function.comp_apply, hds, hsr, hmemidx, hq, ← hdc]
      · simp [Function.comp_apply, hds, List.mem_cons]
    · have hnm : s ∉ dc.index := fun hm => hidx (List.elem_iff.mpr hm)
      have hidx2 : dc.index.contains s = false := Bool.eq_false_iff.mpr hidx
      rw [hidx2]
      show normalizeChannels df rest dc = _
      rw [ih df hnd (List.nodup_cons.mp hsel).2
          (fun x hx => hmem x (List.mem_cons_of_mem _ hx))
          (fun x hx => hloc x (List.mem_cons_of_mem _ hx))]
      congr 2
      apply List.map_congr_left
      intro d _
      by_cases hds : d.fst = s
      · simp [hds, hnm]
      · simp [hds, List.mem_cons]

/-- Claim C3: the normalization step divides each selected channel that is
a key of the capacity index by that channel's scalar string count, and
leaves each selected channel absent from the index completely unmodified
while raising no error (the run returns a table). -/
theorem normalize_divides_present_skips_absent (df : Table)
    (selected : List String) (dc : IndexedCapacity)
    (hnd : (colNames df).Nodup) (hsel : selected.Nodup)
    (hmem : ∀ s ∈ selected, s ∈ colNames df)
    (hloc : ∀ s ∈ selected, dc.index.contains s = true → (locScalar dc s).isSome) :
    ∃ out, normalizeChannels df selected dc = some out ∧
      List.Forall₂ (fun c d =>
        d.fst = c.fst ∧
        ((c.fst ∈ selected ∧ c.fst ∈ dc.index) →
          ∃ q, locScalar dc c.fst = some q ∧
            d.snd = c.snd.map (fun v => v / q)) ∧
        (¬ (c.fst ∈ selected ∧ c.fst ∈ dc.index) → d.snd = c.snd))
        df.cols out.cols := by
  refine ⟨_, normalizeChannels_eq_map dc selected df hnd hsel hmem hloc, ?_⟩
  show List.Forall₂ _ df.cols (df.cols.map _)
  rw [List.forall₂_map_right_iff, List.forall₂_same]
  intro c hc
  by_cases hin : c.fst ∈ selected ∧ c.fst ∈ dc.index
  · have hc2 : dc.index.contains c.fst = true := List.elem_iff.mpr hin.2
    obtain ⟨q, hq⟩ := Option.isSome_iff_exists.mp (hloc c.fst hin.1 hc2)
    exact ⟨by simp [hin], fun _ => ⟨q, hq, by simp [hin, hq]⟩,
      fun hx => absurd hin hx⟩
  · exact ⟨by simp [hin], fun hx => absurd hx hin, fun _ => by simp [hin]⟩

/-- Witness for C3 at the spec's normalization example: channel 1 with
string count 24 has [48, 0, 10] divided to [2, 0, 5/12]; channel 2 is
absent from the capacity table and stays unmodified. -/
theorem normalize_divides_present_skips_absent_witness :
    ∃ out,
      normalizeChannels ⟨[("CB_CURRENT_1", [48, 0, 10]), ("CB_CURRENT_2", [6])]⟩
        ["CB_CURRENT_1", "CB_CURRENT_2"] ⟨["CB_CURRENT_1"], [24]⟩ = some out ∧
      List.Forall₂ (fun c d =>
        d.fst = c.fst ∧
        ((c.fst ∈ ["CB_CURRENT_1", "CB_CURRENT_2"] ∧ c.fst ∈ ["CB_CURRENT_1"]) →
          ∃ q, locScalar ⟨["CB_CURRENT_1"], [24]⟩ c.fst = some q ∧
            d.snd = c.snd.map (fun v => v / q)) ∧
        (¬ (c.fst ∈ ["CB_CURRENT_1", "CB_CURRENT_2"] ∧ c.fst ∈ ["CB_CURRENT_1"]) →
          d.snd = c.snd))
        [("CB_CURRENT_1", [48, 0, 10]), ("CB_CURRENT_2", [6])] out.cols :=
  normalize_divides_present_skips_absent
    ⟨[("CB_CURRENT_1", [48, 0, 10]), ("CB_CURRENT_2", [6])]⟩
    ["CB_CURRENT_1", "CB_CURRENT_2"] ⟨["CB_CURRENT_1"], [24]⟩
    (by decide) (by decide) (by decide) (by decide)

/-! ### Claim C4 -/

/-- Counterexample to C4 as stated: after loading a capacity file whose key
column repeats CB_CURRENT_1 with string counts 24 then 30, looking the key
up returns both colliding entries in row order; the earlier count 24 is
still reachable, and the result is not just the later entry. -/
theorem load_dc_duplicate_counterexample :
    dcLoc (load_dc_file ⟨[("CB_CURRENT_1", 24), ("CB_CURRENT_1", 30)]⟩)
        "CB_CURRENT_1" = [24, 30] ∧
    (24 : Val) ∈ dcLoc (load_dc_file ⟨[("CB_CURRENT_1", 24), ("CB_CURRENT_1", 30)]⟩)
        "CB_CURRENT_1" ∧
    dcLoc (load_dc_file ⟨[("CB_CURRENT_1", 24), ("CB_CURRENT_1", 30)]⟩)
        "CB_CURRENT_1" ≠ [30] := by
  decide

/-- Amended C4: load_dc_file re-indexes by the channel-identifier column
keeping every row, duplicates included; a lookup of a duplicated key
returns the string counts of all colliding rows in row order, so the
earlier row's count remains reachable. -/
theorem load_dc_file_keeps_duplicates (f : RawCapacity) (k : String) :
    (load_dc_file f).index = f.rows.map Prod.fst ∧
    dcLoc (load_dc_file f) k =
      (f.rows.filter (fun p => p.fst == k)).map Prod.snd := by
  refine ⟨rfl, ?_⟩
  simp [dcLoc, load_dc_file, List.zip_map']

/-! ### Claims C5, C6, C7: the date-range filter -/

/-- Claim C5: on a non-empty table, the Today / Last 7 Days / Last 15 Days
modes keep exactly the rows whose timestamp is at least the maximum
timestamp minus 0, 7, 15 days respectively, and a row exactly on the
boundary is kept. -/
theorem timeFilter_lastN_days (rows : List CBRow) (opt : DateOption) (N : Int)
    (hne : rows ≠ [])
    (hopt : (opt = .today ∧ N = 0) ∨ (opt = .last7 ∧ N = 7) ∨
      (opt = .last15 ∧ N = 15)) :
    ∃ mx, (rows.map (fun r => r.dt)).max? = some mx ∧
      timeFilter rows opt =
        rows.filter (fun r => decide (mx - N * secondsPerDay ≤ r.dt)) ∧
      ∀ r ∈ rows, r.dt = mx - N * secondsPerDay → r ∈ timeFilter rows opt := by
  obtain ⟨a, as, rfl⟩ := List.exists_cons_of_ne_nil hne
  have hmax : ((a :: as).map (fun r => r.dt)).max? =
      some ((as.map (fun r => r.dt)).foldl max a.dt) := rfl
  rcases hopt with ⟨rfl, rfl⟩ | ⟨rfl, rfl⟩ | ⟨rfl, rfl⟩ <;>
  · refine ⟨_, hmax, ?_, ?_⟩
    · rfl
    · intro r hr heq
      refine List.mem_filter.mpr ⟨hr, ?_⟩
      simp only [heq, daysOf, secondsPerDay, decide_eq_true_eq]
      omega

/-- Witness for C5 in mode Last 7 Days: the maximum timestamp is 1000000,
the boundary row at 1000000 - 604800 = 395200 is kept, the older row is
dropped. -/
theorem timeFilter_lastN_days_witness :
    ∃ mx, (([⟨1000000, []⟩, ⟨395200, []⟩, ⟨0, []⟩] : List CBRow).map
        (fun r => r.dt)).max? = some mx ∧
      timeFilter [⟨1000000, []⟩, ⟨395200, []⟩, ⟨0, []⟩] .last7 =
        ([⟨1000000, []⟩, ⟨395200, []⟩, ⟨0, []⟩] : List CBRow).filter
          (fun r => decide (mx - 7 * secondsPerDay ≤ r.dt)) ∧
      ∀ r ∈ ([⟨1000000, []⟩, ⟨395200, []⟩, ⟨0, []⟩] : List CBRow),
        r.dt = mx - 7 * secondsPerDay →
        r ∈ timeFilter [⟨1000000, []⟩, ⟨395200, []⟩, ⟨0, []⟩] .last7 :=
  timeFilter_lastN_days [⟨1000000, []⟩, ⟨395200, []⟩, ⟨0, []⟩] .last7 7
    (by decide) (Or.inr (Or.inl ⟨rfl, rfl⟩))

/-- Claim C6: the Custom mode keeps exactly the rows whose timestamp date
lies between the two picked dates inclusive; when the start date is after
the end date no row can satisfy both bounds, so the result has zero rows
and no validation error is raised. -/
theorem timeFilter_custom_range (rows : List CBRow) (s e : Int) :
    (e < s → timeFilter rows (.custom s e) = []) ∧
    (∀ r, r ∈ timeFilter rows (.custom s e) ↔
      r ∈ rows ∧ s ≤ dateOf r.dt ∧ dateOf r.dt ≤ e) := by
  constructor
  · intro hlt
    apply List.filter_eq_nil_iff.mpr
    intro r _
    simp only [Bool.and_eq_true, decide_eq_true_eq, not_and]
    intro h1 h2
    exact absurd (le_trans h1 h2) (not_le.mpr hlt)
  · intro r
    rw [show timeFilter rows (.custom s e) = rows.filter
      (fun r => decide (s ≤ dateOf r.dt) && decide (dateOf r.dt ≤ e)) from rfl,
      List.mem_filter]
    simp

/-- Witness for C6: an inverted custom range (start day 5, end day 3)
yields zero rows. -/
theorem timeFilter_custom_range_witness :
    timeFilter [⟨0, []⟩] (.custom 5 3) = [] :=
  (timeFilter_custom_range [⟨0, []⟩] 5 3).1 (by decide)

/-- Claim C7: the All mode is the identity transform on the table. -/
theorem timeFilter_all_identity (rows : List CBRow) :
    timeFilter rows .all = rows := rfl

/-! ### Claim C8: apply_threshold does not mutate its input -/

theorem applyThresholdLoop_frame (scbs : List String) :
    ∀ (h : Heap) (r : Nat) (threshold : Val) (h2 : Heap),
      applyThresholdLoop h r scbs threshold = some h2 →
      ∀ i, i ≠ r → h2[i]? = h[i]? := by
  induction scbs with
  | nil =>
    intro h r threshold h2 hrun i hi
    simp [applyThresholdLoop] at hrun
    rw [hrun]
  | cons s rest ih =>
    intro h r threshold h2 hrun i hi
    unfold applyThresholdLoop at hrun
    split at hrun
    · cases hrun
    · split at hrun
      · cases hrun
      · rw [ih _ r threshold h2 hrun i hi, List.getElem?_set_ne (Ne.symm hi)]

/-- Claim C8: running apply_threshold against the heap never changes the
table its argument refers to: the body copies the input into a fresh
reference, mutates only the copy, and returns the fresh reference. -/
theorem apply_threshold_no_mutation (h : Heap) (dfRef : Nat)
    (scbs : List String) (threshold : Val) (h2 : Heap) (outRef : Nat)
    (hrun : applyThresholdProg h dfRef scbs threshold = some (h2, outRef)) :
    h2[dfRef]? = h[dfRef]? ∧ outRef ≠ dfRef := by
  unfold applyThresholdProg at hrun
  split at hrun
  · cases hrun
  case _ t heq =>
    split at hrun
    · cases hrun
    case _ hh heq2 =>
      have hpair : hh = h2 ∧ h.length = outRef := by
        have := Option.some.inj hrun
        exact ⟨congrArg Prod.fst this, congrArg Prod.snd this⟩
      obtain ⟨rfl, houtRef⟩ := hpair
      have hlt : dfRef < h.length := (List.getElem?_eq_some.mp heq).1
      have hne : dfRef ≠ h.length := Nat.ne_of_lt hlt
      constructor
      · rw [applyThresholdLoop_frame scbs (h ++ [t]) h.length threshold hh heq2
          dfRef hne]
        exact List.getElem?_append_left hlt
      · rw [← houtRef]
        exact (Nat.ne_of_lt hlt).symm

/-- Witness for C8: a concrete run on a one-table heap leaves the table at
reference 0 untouched and returns the fresh reference 1. -/
theorem apply_threshold_no_mutation_witness :
    ([⟨[("CB_CURRENT_1", [50, 250])]⟩, ⟨[("CB_CURRENT_1", [50, 0])]⟩] :
        Heap)[0]? = ([⟨[("CB_CURRENT_1", [50, 250])]⟩] : Heap)[0]? ∧
      (1 : Nat) ≠ 0 :=
  apply_threshold_no_mutation [⟨[("CB_CURRENT_1", [50, 250])]⟩] 0
    ["CB_CURRENT_1"] 200
    [⟨[("CB_CURRENT_1", [50, 250])]⟩, ⟨[("CB_CURRENT_1", [50, 0])]⟩] 1
    (by decide)

/-! ### Claim C9 -/

theorem contains_eq_false_of_not_mem {l : List String} {a : String}
    (h : a ∉ l) : l.contains a = false :=
  Bool.eq_false_iff.mpr (fun hc => h (List.elem_iff.mp hc))

/-- Counterexample to C9 as stated: on a table lacking the Time column the
validator's message is "Missing Date or Time column" with no trailing
period, not the claimed "Missing Date or Time column." -/
theorem validate_cb_message_counterexample :
    validate_cb_file ["Date", "CB_CURRENT_1"] =
      (false, "Missing Date or Time column") ∧
    (validate_cb_file ["Date", "CB_CURRENT_1"]).snd ≠
      "Missing Date or Time column." := by
  decide

/-- Amended C9: for a table lacking the Time column (or the Date column)
the validator returns false with the message "Missing Date or Time column"
(no trailing period) and the session table slot is left unchanged; and the
validator returns false whenever Date or Time is missing or no
CB_CURRENT-prefixed column exists. -/
theorem validate_cb_missing_time (columns cols2 : List String)
    (stored : Option Table) (loaded : Table)
    (h : "Date" ∉ columns ∨ "Time" ∉ columns)
    (h2 : "Date" ∉ cols2 ∨ "Time" ∉ cols2 ∨
      ∀ c ∈ cols2, ¬ c.startsWith "CB_CURRENT") :
    validate_cb_file columns = (false, "Missing Date or Time column") ∧
    welcomeStoreCB stored columns loaded = stored ∧
    (validate_cb_file cols2).fst = false := by
  have c1 : validate_cb_file columns = (false, "Missing Date or Time column") := by
    unfold validate_cb_file
    rcases h with h | h <;> rw [contains_eq_false_of_not_mem h] <;> simp
  refine ⟨c1, ?_, ?_⟩
  · unfold welcomeStoreCB
    rw [c1]
    rfl
  · by_cases hdt : (cols2.contains "Date" && cols2.contains "Time") = true
    · have hmem := Bool.and_eq_true_iff.mp hdt
      rcases h2 with h2 | h2 | h2
      · exact absurd (List.elem_iff.mp hmem.1) h2
      · exact absurd (List.elem_iff.mp hmem.2) h2
      · have hfil : cols2.filter (fun c => c.startsWith "CB_CURRENT") = [] :=
          List.filter_eq_nil_iff.mpr (fun c hc => by simpa using h2 c hc)
        unfold validate_cb_file
        rw [hdt, hfil]
        simp
    · unfold validate_cb_file
      rw [Bool.eq_false_iff.mpr hdt]
      simp

/-- Witness for C9: a table with only Date and a channel column is rejected
with the period-free message and nothing is stored; a table with Date and
Time but no channel column is also rejected. -/
theorem validate_cb_missing_time_witness :
    validate_cb_file ["Date", "CB_CURRENT_1"] =
      (false, "Missing Date or Time column") ∧
    welcomeStoreCB none ["Date", "CB_CURRENT_1"] ⟨[]⟩ = none ∧
    (validate_cb_file ["Date", "Time", "Voltage"]).fst = false :=
  validate_cb_missing_time ["Date", "CB_CURRENT_1"] ["Date", "Time", "Voltage"]
    none ⟨[]⟩ (by decide) (by decide)

/-! ### Claim C10 -/

/-- Claim C10: a capacity file with both required columns and no null
STRINGS cell passes validation even when a string count is zero or
negative, and the normalization step performs the division by such a count
unguarded: with string count z the channel column is divided by z, with no
z = 0 check anywhere on the path. -/
theorem validate_dc_accepts_nonpositive (f : CapacityFile) (df : Table)
    (k : String) (vs : List Val) (z : Val)
    (hcb : "CB_INDEX" ∈ f.columns) (hst : "STRINGS" ∈ f.columns)
    (hnull : ∀ v ∈ f.strings, v ≠ none)
    (hz : some z ∈ f.strings) (hzle : z ≤ 0)
    (hcol : getCol df k = some vs) :
    validate_dc_file f = (true, "Valid DC capacity file") ∧
    normalizeChannels df [k] ⟨[k], [z]⟩ =
      some (setCol df k (vs.map (fun v => v / z))) := by
  constructor
  · unfold validate_dc_file
    have h1 : f.columns.contains "CB_INDEX" = true := List.elem_iff.mpr hcb
    have h2 : f.columns.contains "STRINGS" = true := List.elem_iff.mpr hst
    have h3 : f.strings.any (fun v => v.isNone) = false := by
      rw [Bool.eq_false_iff]
      intro hany
      obtain ⟨v, hv, hvn⟩ := List.any_eq_true.mp hany
      cases v with
      | none => exact hnull none hv rfl
      | some q => cases hvn
    rw [h1, h2, h3]
    rfl
  · have hloc : locScalar ⟨[k], [z]⟩ k = some z := by
      have hd : dcLoc ⟨[k], [z]⟩ k = [z] := by simp [dcLoc]
      unfold locScalar
      rw [hd]
    unfold normalizeChannels
    have hidx : (([k] : List String).contains k) = true := by simp
    rw [hidx, hloc, hcol]
    rfl

/-- Witness for C10: a capacity file whose only string count is 0 passes
validation, and normalizing a channel against string count 0 divides the
column by 0. -/
theorem validate_dc_accepts_nonpositive_witness :
    validate_dc_file ⟨["CB_INDEX", "STRINGS"], [some 0]⟩ =
      (true, "Valid DC capacity file") ∧
    normalizeChannels ⟨[("CB_CURRENT_1", [10])]⟩ ["CB_CURRENT_1"]
        ⟨["CB_CURRENT_1"], [0]⟩ =
      some (setCol ⟨[("CB_CURRENT_1", [10])]⟩ "CB_CURRENT_1"
        ([10].map (fun v => v / 0))) :=
  validate_dc_accepts_nonpositive ⟨["CB_INDEX", "STRINGS"], [some 0]⟩
    ⟨[("CB_CURRENT_1", [10])]⟩ "CB_CURRENT_1" [10] 0
    (by decide) (by decide) (by decide) (by decide) (by decide) (by decide)

end SCB
